import Mathlib

/-!
Verification of the column-oriented data-cleaning toolkit
(`src/data_cleaner.py` and `src/main.py`) against its specification.

The Python code is shallowly embedded:

* a pandas cell is `Cell := Option Val` — `none` is the MissingMarker
  (`None`/`NaN`; `pd.isna` is the `none` test);
* a DataFrame is `Table := List (String × List Cell)` — an ordered
  sequence of named columns (pandas column labels are unique; where a
  theorem needs this it carries a `Nodup` hypothesis);
* Python `float` values are modelled as `ℚ` (exact arithmetic; no claim
  below depends on binary rounding), and a fallible Python expression is
  an `Except String _` value whose `.error` constructor stands for a
  raised exception;
* Python strings are Lean `String`/`List Char`, with `ord`/`chr` as
  `Char.toNat`/`Char.ofNat`, and ASCII-only `isdigit`/`upper`/`lower`
  semantics as the spec prescribes ("locale-insensitive, ASCII
  digit/letter semantics only").

Numeric cells are never fed to the textual parsers by any claim, so the
`str()` rendering of numbers (`pyStr`) is a total stand-in whose exact
text is irrelevant to every theorem below.
-/

namespace DataCleaning

/-- A non-missing pandas cell value: text, float (as `ℚ`) or int. -/
inductive Val where
  | vstr (s : String)
  | vnum (q : ℚ)
  | vint (n : Int)
deriving DecidableEq

/-- A pandas cell; `none` is the MissingMarker (`None`/`NaN`). -/
abbrev Cell := Option Val

/-- A DataFrame: an ordered sequence of named columns. -/
abbrev Table := List (String × List Cell)

/-- Python `str()` of a cell value (numeric renderings are irrelevant to the claims). -/
def pyStr (v : Val) : String :=
  match v with
  | .vstr s => s
  | .vint n => toString n
  | .vnum q => toString q.num ++ "/" ++ toString q.den

/-- Python whitespace for `str.strip()`. -/
def pyWhitespace (c : Char) : Bool :=
  c == ' ' || c == '\t' || c == '\n' || c == '\r' || c == '\x0b' || c == '\x0c'

/-- Python `str.strip()`. -/
def pyStrip (s : String) : String :=
  String.mk (((s.toList.dropWhile pyWhitespace).reverse.dropWhile pyWhitespace).reverse)

/-- Python `str.lower()` (ASCII). -/
def pyLower (s : String) : String :=
  String.mk (s.toList.map Char.toLower)

/-- Numeric value of a run of ASCII digits. -/
def digitsVal (l : List Char) : Nat :=
  l.foldl (fun a c => a * 10 + (c.toNat - 48)) 0

/-- Python `float(s)` on the digit/dot/minus strings the cleaners build:
`some` its exact value, or `none` when Python raises `ValueError`
(more than one dot, a non-leading or repeated minus, or no digit at all). -/
def parseFloat (l : List Char) : Option ℚ :=
  let neg : Bool := match l with | '-' :: _ => true | _ => false
  let body : List Char := match l with | '-' :: rest => rest | _ => l
  if body.all (fun c => c.isDigit || c == '.') &&
     body.count '.' ≤ 1 && body.any Char.isDigit then
    let ip := body.takeWhile (fun c => c != '.')
    let fp := (body.dropWhile (fun c => c != '.')).drop 1
    let v : ℚ := (digitsVal ip : ℚ) + (digitsVal fp : ℚ) / ((10 : ℚ) ^ fp.length)
    some (if neg then -v else v)
  else none

/-- `clean_phone` (inner function of `clean_phone_numbers`): keep only digits,
require at least `minDigits` of them. -/
def clean_phone (minDigits : Nat) (v : Cell) : Cell :=
  match v with
  | none => none
  | some x =>
    let cleaned := (pyStr x).toList.filter Char.isDigit
    if cleaned.length ≥ minDigits then some (.vstr (String.mk cleaned)) else none

/-- `clean_amount` (inner function of `clean_monetary_values` in
`data_cleaner.py`): keep digits and dots, then call `float` — which is *not*
guarded, so a multi-dot remainder raises (`.error`). -/
def clean_amount (v : Cell) : Except String Cell :=
  match v with
  | none => .ok none
  | some x =>
    let cleaned := (pyStr x).toList.filter (fun c => c.isDigit || c == '.')
    if cleaned.isEmpty then .ok none
    else
      match parseFloat cleaned with
      | some q => .ok (some (.vnum q))
      | none => .error "ValueError"

/-- `clean_percentage` (inner function of `clean_percentages`): like
`clean_amount` but divides by 100; the `float` call is equally unguarded. -/
def clean_percentage (v : Cell) : Except String Cell :=
  match v with
  | none => .ok none
  | some x =>
    let cleaned := (pyStr x).toList.filter (fun c => c.isDigit || c == '.')
    if cleaned.isEmpty then .ok none
    else
      match parseFloat cleaned with
      | some q => .ok (some (.vnum (q / 100)))
      | none => .error "ValueError"

/-- `clean_email` (inner function of `clean_emails`): strip, lower-case,
require an `@`. -/
def clean_email (v : Cell) : Cell :=
  match v with
  | none => none
  | some x =>
    let cleaned := pyLower (pyStrip (pyStr x))
    if cleaned.toList.contains '@' then some (.vstr cleaned) else none

/-- The fixed URL prefix list `self.url_prefixes`. -/
def urlPrefixes : List (List Char) :=
  ["http://".toList, "https://".toList, "www.".toList]

/-- Remove trailing slash characters: Python `rstrip` with a slash argument. -/
def rstripSlashes (l : List Char) : List Char :=
  (l.reverse.dropWhile (fun c => c == '/')).reverse

/-- `clean_url` (inner function of `clean_urls`): strip + lower-case, then a
`for` loop over `url_prefixes` that removes *each* prefix that matches the
current string (the loop has no `break`), then
`cleaned.rstrip(slash) if cleaned else None` — note the emptiness test is on
the string *before* the trailing slashes are removed. -/
def clean_url (v : Cell) : Cell :=
  match v with
  | none => none
  | some x =>
    let cleaned := (pyLower (pyStrip (pyStr x))).toList
    let cleaned := urlPrefixes.foldl
      (fun cur p => if p.isPrefixOf cur then cur.drop p.length else cur) cleaned
    if cleaned.isEmpty then none else some (.vstr (String.mk (rstripSlashes cleaned)))

/-- `clean_scientific` (inner function of `clean_scientific_notation`): the
exponent branch is wrapped in `try/except` (any fault, including a split into
more than two parts or an unparsable base/exponent, yields `None`); the
no-exponent fallback calls `float` *outside* the `try`, unguarded. -/
def clean_scientific (v : Cell) : Except String Cell :=
  match v with
  | none => .ok none
  | some x =>
    let sv := (pyLower (pyStr x)).toList
    if sv.contains 'e' then
      .ok (
        if sv.count 'e' == 1 then
          match parseFloat ((sv.takeWhile (fun c => c != 'e')).filter
                  (fun c => c.isDigit || c == '.')),
                parseFloat (((sv.dropWhile (fun c => c != 'e')).drop 1).filter
                  (fun c => c.isDigit || c == '-')) with
          | some b, some e => some (.vnum (b * (10 : ℚ) ^ e.num))
          | _, _ => none
        else none)
    else
      let cleaned := sv.filter (fun c => c.isDigit || c == '.')
      if cleaned.isEmpty then .ok none
      else
        match parseFloat cleaned with
        | some q => .ok (some (.vnum q))
        | none => .error "ValueError"

/-- `self.roman_values`, as a lookup function. -/
def romanValues (c : Char) : Option Nat :=
  match c with
  | 'I' => some 1
  | 'V' => some 5
  | 'X' => some 10
  | 'L' => some 50
  | 'C' => some 100
  | 'D' => some 500
  | 'M' => some 1000
  | _ => none

/-- The `for i in range(len(roman))` accumulation of `clean_roman`, on the
list of symbol values: subtract `vals[i]` when `i+1 < len` and
`vals[i] < vals[i+1]`, add it otherwise. -/
def romanLoop (vals : List Nat) : Int :=
  (List.range vals.length).foldl
    (fun result i =>
      if i + 1 < vals.length ∧ vals.getD i 0 < vals.getD (i + 1) 0 then
        result - (vals.getD i 0 : Int)
      else
        result + (vals.getD i 0 : Int)) 0

/-- `clean_roman` (inner function of `clean_roman_numerals`): strip and
upper-case, reject if any character is outside `roman_values`, then run the
index loop. -/
def clean_roman (v : Cell) : Cell :=
  match v with
  | none => none
  | some x =>
    let roman := (pyStrip (pyStr x)).toList.map Char.toUpper
    if roman.all (fun c => (romanValues c).isSome) then
      some (.vint (romanLoop (roman.map (fun c => (romanValues c).getD 0))))
    else none

/-- The cipher key derivation: `sum(ord(c) for c in code_name)`. -/
def numericKey (key : String) : Nat :=
  (key.toList.map Char.toNat).sum

/-- One character of `_encrypt_value`: `chr((ord(char) + numeric_key) % 128)`. -/
def encChar (k : Nat) (c : Char) : Char :=
  Char.ofNat ((c.toNat + k) % 128)

/-- One character of `_decrypt_value`: `chr((ord(char) - numeric_key) % 128)`
(Python `%` on a negative operand, i.e. Euclidean remainder). -/
def decChar (k : Nat) (c : Char) : Char :=
  Char.ofNat ((((c.toNat : Int) - (k : Int)) % 128).toNat)

/-- `_encrypt_value`: `None` passes through; otherwise shift every character
of `str(value)` up by the numeric key, modulo 128. -/
def encrypt_value (v : Cell) (key : String) : Cell :=
  v.map (fun x => .vstr (String.mk ((pyStr x).toList.map (encChar (numericKey key)))))

/-- `_decrypt_value`: `None` passes through; otherwise shift every character
of `str(value)` down by the numeric key, modulo 128. -/
def decrypt_value (v : Cell) (key : String) : Cell :=
  v.map (fun x => .vstr (String.mk ((pyStr x).toList.map (decChar (numericKey key)))))

end DataCleaning

namespace MainPy

open DataCleaning

/-- `extract_digits` (inner function of `main.py` `clean_phone_numbers`): as
`clean_phone` with the 9-digit minimum hard-coded, and a `try/except`
around a body that cannot fault. -/
def extract_digits (v : Cell) : Cell :=
  match v with
  | none => none
  | some x =>
    let cleaned := (pyStr x).toList.filter Char.isDigit
    if cleaned.length < 9 then none else some (.vstr (String.mk cleaned))

/-- `extract_numbers` (inner function of `main.py` `clean_monetary_values`):
same extraction as `clean_amount`, but the whole body sits in a `try/except`
that converts any fault (for example `float` on a multi-dot remainder) to
`None`. -/
def extract_numbers (v : Cell) : Cell :=
  match v with
  | none => none
  | some x =>
    let cleaned := (pyStr x).toList.filter (fun c => c.isDigit || c == '.')
    if cleaned.isEmpty then none
    else
      match parseFloat cleaned with
      | some q => some (.vnum q)
      | none => none

end MainPy

namespace DataCleaning

/-- Column names of a table, in order. -/
def colNames (t : Table) : List String :=
  t.map (·.1)

/-- Row count of each column, in order. -/
def rowLens (t : Table) : List Nat :=
  t.map (fun e => e.2.length)

/-- Python `col in df.columns`. -/
def hasCol (t : Table) (c : String) : Bool :=
  t.any (fun e => e.1 == c)

/-- Python `df[c]` (the first column labelled `c`), when present. -/
def getCol (t : Table) (c : String) : Option (List Cell) :=
  (t.find? (fun e => e.1 == c)).map (·.2)

/-- Python `df[c]` with an empty default (only used where `hasCol` holds). -/
def getColD (t : Table) (c : String) : List Cell :=
  (getCol t c).getD []

/-- Python `df[c] = vals` for an existing column label `c`. -/
def setCol (t : Table) (c : String) (vals : List Cell) : Table :=
  t.map (fun e => if e.1 == c then (e.1, vals) else e)

/-- Python `df[c] = vals`: replace in place when the label exists, append a
new column at the end otherwise. -/
def addOrSet (t : Table) (c : String) (vals : List Cell) : Table :=
  if hasCol t c then setCol t c vals else t ++ [(c, vals)]

/-- Python `df.drop(c, axis=1)`. -/
def dropCol (t : Table) (c : String) : Table :=
  t.filter (fun e => e.1 != c)

/-- Pandas `series.apply(f)` for a fallible per-value function: values are
transformed in order and the first raised exception aborts the whole apply. -/
def apply_series (f : Cell → Except String Cell) : List Cell → Except String (List Cell)
  | [] => .ok []
  | v :: rest =>
    match f v with
    | .error e => .error e
    | .ok w =>
      match apply_series f rest with
      | .error e => .error e
      | .ok ws => .ok (w :: ws)

/-- Column-not-found warning of `_process_columns`. -/
def warnNotFound (c : String) : String :=
  "Warning: Column " ++ c ++ " not found in DataFrame"

/-- Per-column error warning of `_process_columns`. -/
def errColumn (c e : String) : String :=
  "Error processing column " ++ c ++ ": " ++ e

/-- The `for col in col_names` loop of `_process_columns`, after the copy:
a missing column is skipped with a warning; a column whose apply raises is
left as copied, with an error message; warnings are collected in loop order. -/
def process_core (t : Table) (cols : List String) (f : Cell → Except String Cell) :
    Table × List String :=
  match cols with
  | [] => (t, [])
  | c :: rest =>
    if hasCol t c then
      match apply_series f (getColD t c) with
      | .ok vals => process_core (setCol t c vals) rest f
      | .error e =>
        let r := process_core t rest f
        (r.1, errColumn c e :: r.2)
    else
      let r := process_core t rest f
      (r.1, warnNotFound c :: r.2)

/-- The fatal call-level errors: `TypeError` (`InvalidInputError`) and
`ValueError` (`EmptySelectionError`). -/
inductive CleanError where
  | invalidInput (msg : String)
  | emptySelection (msg : String)
deriving DecidableEq

/-- A dynamically-typed Python argument, for the `isinstance` checks of
`_validate_inputs`. -/
inductive PyVal where
  | pdf (t : Table)
  | plist (l : List String)
  | pstr (s : String)
  | pint (n : Int)
  | pnone

/-- Python `isinstance(x, pd.DataFrame)`. -/
def PyVal.isDataFrame : PyVal → Bool
  | .pdf _ => true
  | _ => false

/-- Python `isinstance(x, list)`. -/
def PyVal.isList : PyVal → Bool
  | .plist _ => true
  | _ => false

/-- `_validate_inputs`: DataFrame check, then list check, then non-empty
check, in source order. -/
def validate_inputs (df colsArg : PyVal) : Except CleanError Unit :=
  match df with
  | .pdf _ =>
    match colsArg with
    | .plist l =>
      if l.isEmpty then .error (.emptySelection "Column names list cannot be empty")
      else .ok ()
    | _ => .error (.invalidInput "Column names must be provided as a list")
  | _ => .error (.invalidInput "Input must be a pandas DataFrame")

/-- `_process_columns`: validate eagerly, copy, then run the column loop.
An `.error` result models an exception raised before any table is built. -/
def process_columns (df colsArg : PyVal) (f : Cell → Except String Cell) :
    Except CleanError (Table × List String) :=
  match validate_inputs df colsArg with
  | .error e => .error e
  | .ok _ =>
    match df, colsArg with
    | .pdf t, .plist l => .ok (process_core t l f)
    | _, _ => .error (.invalidInput "Input must be a pandas DataFrame")

/-- Column-not-found warning of `encrypt_columns` / `decrypt_columns`. -/
def warnNotFoundCipher (c : String) : String :=
  "Warning: Column " ++ c ++ " not found"

/-- `encrypt_columns`: no validation at all — copy, then for each selected
name present, add `<name>_encrypted` with the encrypted values and drop the
source column; a missing name only warns. -/
def encrypt_columns (t : Table) (cols : List String) (key : String) :
    Table × List String :=
  match cols with
  | [] => (t, [])
  | c :: rest =>
    if hasCol t c then
      encrypt_columns
        (dropCol (addOrSet t (c ++ "_encrypted")
          ((getColD t c).map (fun v => encrypt_value v key))) c)
        rest key
    else
      let r := encrypt_columns t rest key
      (r.1, warnNotFoundCipher c :: r.2)

/-- The characters of the suffix literal used by `decrypt_columns`. -/
def encTag : List Char :=
  "_encrypted".toList

/-- Worker for `removeTag`: scan left to right; while `skip` is positive the
character belongs to an occurrence already matched and is consumed silently;
at `skip = 0` a match of the tag consumes its first character and arms the
skip counter for the remaining tag characters (non-overlapping scan). -/
def removeTagGo : List Char → Nat → List Char
  | [], _ => []
  | _ :: rest, Nat.succ k => removeTagGo rest k
  | c :: rest, 0 =>
    if encTag.isPrefixOf (c :: rest) then removeTagGo rest (encTag.length - 1)
    else c :: removeTagGo rest 0

/-- Python `col.replace(tag, empty)`: delete every (non-overlapping,
left-to-right) occurrence of the `_encrypted` tag, wherever it appears. -/
def removeTag (l : List Char) : List Char :=
  removeTagGo l 0

/-- String form of `removeTag`. -/
def removeTagStr (s : String) : String :=
  String.mk (removeTag s.toList)

/-- `decrypt_columns`: same shape as `encrypt_columns`, with the new name
computed by `col.replace` of the tag by the empty string. -/
def decrypt_columns (t : Table) (cols : List String) (key : String) :
    Table × List String :=
  match cols with
  | [] => (t, [])
  | c :: rest =>
    if hasCol t c then
      decrypt_columns
        (dropCol (addOrSet t (removeTagStr c)
          ((getColD t c).map (fun v => decrypt_value v key))) c)
        rest key
    else
      let r := decrypt_columns t rest key
      (r.1, warnNotFoundCipher c :: r.2)

/-- Spec-side (amended) URL prefix removal, written as the spec's words
read after correction: each prefix of the fixed list is tried in order
against the current string, and each one that matches is removed. -/
def stripUrlPrefixes : List (List Char) → List Char → List Char
  | [], s => s
  | p :: ps, s => stripUrlPrefixes ps (if p.isPrefixOf s then s.drop p.length else s)

/-- Spec-side (amended) URL rule: trim and lower-case, remove every matching
prefix of the fixed ordered list, return MissingMarker when the string is
empty *before* trailing slashes are removed, else remove trailing slashes. -/
def urlAmendedSpec (s : String) : Option Val :=
  let t := stripUrlPrefixes urlPrefixes (pyLower (pyStrip s)).toList
  if t.isEmpty then none else some (.vstr (String.mk (rstripSlashes t)))

/-- Contribution of position `i` to the Roman-numeral total. -/
def romanDelta (vals : List Nat) (i : Nat) : Int :=
  if i + 1 < vals.length ∧ vals.getD i 0 < vals.getD (i + 1) 0 then
    -(vals.getD i 0 : Int)
  else
    (vals.getD i 0 : Int)

/-- Spec-side subtractive-pair rule: scanning left to right, a symbol is
subtracted when the next symbol is strictly greater and added otherwise. -/
def romanPairSum : List Nat → Int
  | [] => 0
  | [a] => (a : Int)
  | a :: b :: rest => (if a < b then -(a : Int) else (a : Int)) + romanPairSum (b :: rest)

/-- Spec-side Roman-numeral parser, as the spec words it: upper-case and
trim, reject any character outside the seven symbols, else apply the
subtractive-pair rule. -/
def romanSpec (s : String) : Option Int :=
  let r := (pyStrip s).toList.map Char.toUpper
  if r.all (fun c => (romanValues c).isSome) then
    some (romanPairSum (r.map (fun c => (romanValues c).getD 0)))
  else none

/-- Concrete percentage column for the C4 failing input. -/
def percentTable : Table :=
  [("percent", [some (.vstr "50%"), some (.vstr "1.2.3%"), some (.vstr "25%")])]

/-- Concrete two-column table for the C1 witness. -/
def frameTable : Table :=
  [("a", [some (.vstr " A@B "), none]), ("b", [some (.vint 1), none])]

/-- The email cleaner, lifted to the engine's fallible-function shape. -/
def frameFn : Cell → Except String Cell :=
  fun v => .ok (clean_email v)

/-- Concrete table for the C9 witness. -/
def cipherTable : Table :=
  [("pw", [some (.vstr "ab"), none])]

/-- Concrete table whose column name holds the cipher tag twice, for the C9
counterexample. -/
def tagTable : Table :=
  [("id_encrypted_encrypted", [some (.vstr "x")])]

/-- Concrete one-column table for the C8 counterexample. -/
def smallTable : Table :=
  [("a", [none])]

end DataCleaning

namespace DataCleaning

lemma char_toNat_ofNat (n : Nat) (h : n < 55296) : (Char.ofNat n).toNat = n := by
  have hv : n.isValidChar := Or.inl h
  rw [Char.ofNat, dif_pos hv]
  rfl

lemma decChar_encChar (k : Nat) (c : Char) (h : c.toNat ≤ 127) :
    decChar k (encChar k c) = c := by
  have ht : (encChar k c).toNat = (c.toNat + k) % 128 := by
    have hm : (c.toNat + k) % 128 < 128 := Nat.mod_lt _ (by omega)
    exact char_toNat_ofNat _ (by omega)
  have hz : ((((encChar k c).toNat : Int) - (k : Int)) % 128).toNat = c.toNat := by
    rw [ht]
    omega
  rw [decChar, hz, Char.ofNat_toNat]

/-- C3: for every text value whose characters all lie in the 0 to 127 code
point range and every key string, decrypting the encryption with the same
key returns the original value. -/
theorem C3_cipher_roundtrip (s key : String) (h : ∀ c ∈ s.toList, c.toNat ≤ 127) :
    decrypt_value (encrypt_value (some (.vstr s)) key) key = some (.vstr s) := by
  have hmap :
      ((s.toList.map (encChar (numericKey key))).map (decChar (numericKey key))) = s.toList := by
    rw [List.map_map]
    have := List.map_congr_left (l := s.toList)
      (f := decChar (numericKey key) ∘ encChar (numericKey key)) (g := id)
      (fun c hc => decChar_encChar (numericKey key) c (h c hc))
    rw [this, List.map_id]
  have h1 : encrypt_value (some (.vstr s)) key
      = some (.vstr (String.mk (s.toList.map (encChar (numericKey key))))) := rfl
  have h2 : decrypt_value (some (.vstr (String.mk (s.toList.map (encChar (numericKey key)))))) key
      = some (.vstr (String.mk
          ((s.toList.map (encChar (numericKey key))).map (decChar (numericKey key))))) := rfl
  rw [h1, h2, hmap]
  cases s
  rfl

/-- Witness for C3 at a concrete printable-ASCII value and key. -/
theorem C3_cipher_roundtrip_witness :
    decrypt_value (encrypt_value (some (.vstr "Hello, World!")) "secret") "secret"
      = some (.vstr "Hello, World!") :=
  C3_cipher_roundtrip "Hello, World!" "secret" (by decide)

/-- C2: every per-value parser of the toolkit, including the cipher pair,
maps the MissingMarker to the MissingMarker. -/
theorem C2_missing_propagates :
    (∀ m : Nat, clean_phone m none = none) ∧
    clean_amount none = .ok none ∧
    clean_percentage none = .ok none ∧
    clean_email none = none ∧
    clean_url none = none ∧
    clean_scientific none = .ok none ∧
    clean_roman none = none ∧
    (∀ k, encrypt_value none k = none) ∧
    (∀ k, decrypt_value none k = none) ∧
    MainPy.extract_digits none = none ∧
    MainPy.extract_numbers none = none :=
  ⟨fun _ => rfl, rfl, rfl, rfl, rfl, rfl, rfl, fun _ => rfl, fun _ => rfl, rfl, rfl⟩

/-- C4: the percentage cleaner has no guard around its numeric parse — on a
multi-dot extraction it raises instead of returning the MissingMarker, and
the column-level handler of the processing loop then skips the whole column,
leaving every cell (including the well-formed ones) unprocessed. -/
theorem C4_percentage_fault_escapes :
    clean_percentage (some (.vstr "1.2.3%")) = .error "ValueError" ∧
    process_core percentTable ["percent"] clean_percentage =
      (percentTable, [errColumn "percent" "ValueError"]) := by
  constructor
  · rfl
  · decide

/-- C5: the `data_cleaner.py` money cleaner lets the numeric-parse fault on a
multi-dot extraction escape, while the duplicated `main.py` money cleaner
guards it and returns the MissingMarker. -/
theorem C5_money_fault :
    clean_amount (some (.vstr "1.2.3")) = .error "ValueError" ∧
    MainPy.extract_numbers (some (.vstr "1.2.3")) = none := by
  constructor
  · rfl
  · rfl

/-- C10: a value whose textual form trims to the empty string passes the
vacuous character validation and yields 0, not the MissingMarker. -/
theorem C10_roman_empty (v : Val) (h : pyStrip (pyStr v) = "") :
    clean_roman (some v) = some (.vint 0) := by
  simp [clean_roman, h, romanLoop]

/-- Witness for C10 at a whitespace-only input. -/
theorem C10_roman_empty_witness :
    pyStrip (pyStr (.vstr "  ")) = "" ∧ clean_roman (some (.vstr "  ")) = some (.vint 0) :=
  ⟨by decide, C10_roman_empty (.vstr "  ") (by decide)⟩

end DataCleaning

namespace DataCleaning

lemma foldl_stripUrlPrefixes (ps : List (List Char)) (s : List Char) :
    ps.foldl (fun cur p => if p.isPrefixOf cur then cur.drop p.length else cur) s
      = stripUrlPrefixes ps s := by
  induction ps generalizing s with
  | nil => rfl
  | cons p rest ih =>
    rw [List.foldl_cons, stripUrlPrefixes]
    exact ih _

/-- Counterexample to C6 as stated: the prefix loop has no break, so both the
scheme and the `www.` prefix are removed, and a value that is only prefixes
and slashes yields the empty string (the emptiness test runs before the
trailing slashes are removed), not the MissingMarker. -/
theorem C6_counterexample :
    clean_url (some (.vstr "https://www.test.com")) = some (.vstr "test.com") ∧
    some (Val.vstr "test.com") ≠ some (Val.vstr "www.test.com") ∧
    clean_url (some (.vstr "http:///")) = some (.vstr "") := by
  refine ⟨by decide, by decide, by decide⟩

/-- C6 (amended): the URL cleaner trims and lower-cases, then tries each
prefix of the fixed ordered list against the current string, removing every
one that matches (so a scheme and `www.` can both go); it returns the
MissingMarker only when the string is empty before trailing-slash removal,
and otherwise returns the string with trailing slashes removed (possibly
empty). -/
theorem C6_url_amended :
    (∀ v : Val, clean_url (some v) = urlAmendedSpec (pyStr v)) ∧
    clean_url (some (.vstr "https://example.com/")) = some (.vstr "example.com") ∧
    clean_url (some (.vstr "www.test.com")) = some (.vstr "test.com") ∧
    clean_url (some (.vstr "https://www.test.com")) = some (.vstr "test.com") ∧
    clean_url (some (.vstr "http:///")) = some (.vstr "") ∧
    clean_url (some (.vstr "https://")) = none := by
  refine ⟨fun v => ?_, by decide, by decide, by decide, by decide, by decide⟩
  show (let cleaned := (pyLower (pyStrip (pyStr v))).toList
        let cleaned := urlPrefixes.foldl
          (fun cur p => if p.isPrefixOf cur then cur.drop p.length else cur) cleaned
        if cleaned.isEmpty then none
        else some (Val.vstr (String.mk (rstripSlashes cleaned)))) = urlAmendedSpec (pyStr v)
  rw [urlAmendedSpec]
  simp only [foldl_stripUrlPrefixes]

lemma foldl_add_delta (g : Nat → Int) (l : List Nat) :
    ∀ a : Int, l.foldl (fun r i => r + g i) a = a + (l.map g).sum := by
  induction l with
  | nil => intro a; simp
  | cons x rest ih =>
    intro a
    rw [List.foldl_cons, ih, List.map_cons, List.sum_cons]
    ring

lemma romanDelta_cons (a : Nat) (vs : List Nat) (i : Nat) :
    romanDelta (a :: vs) (i + 1) = romanDelta vs i := by
  unfold romanDelta
  rw [List.getD_cons_succ, List.getD_cons_succ, List.length_cons]
  simp [Nat.add_lt_add_iff_right]

lemma romanLoop_eq_pairSum (vals : List Nat) : romanLoop vals = romanPairSum vals := by
  have hstep : romanLoop vals = ((List.range vals.length).map (romanDelta vals)).sum := by
    unfold romanLoop
    have hf : (fun (result : Int) (i : Nat) =>
        if i + 1 < vals.length ∧ vals.getD i 0 < vals.getD (i + 1) 0 then
          result - (vals.getD i 0 : Int)
        else
          result + (vals.getD i 0 : Int))
        = fun (r : Int) (i : Nat) => r + romanDelta vals i := by
      funext r i
      unfold romanDelta
      split
      · ring
      · ring
    rw [hf, foldl_add_delta]
    ring
  rw [hstep]
  clear hstep
  induction vals with
  | nil => rfl
  | cons a vs ih =>
    rw [List.length_cons, List.range_succ_eq_map, List.map_cons, List.map_map, List.sum_cons]
    have hmap : (List.range vs.length).map (romanDelta (a :: vs) ∘ Nat.succ)
        = (List.range vs.length).map (romanDelta vs) :=
      List.map_congr_left (fun i _ => romanDelta_cons a vs i)
    rw [hmap, ih]
    cases vs with
    | nil => simp [romanDelta, romanPairSum]
    | cons b rest =>
      rw [romanPairSum]
      congr 1
      unfold romanDelta
      simp [List.length_cons]

end DataCleaning

namespace DataCleaning

/-- C7: the Roman-numeral cleaner upper-cases and trims, returns the
MissingMarker when any character lies outside the seven symbols, and
otherwise computes the left-to-right subtractive-pair sum; non-canonical
forms are accepted and computed by the same rule. -/
theorem C7_roman_rule :
    (∀ s : String, clean_roman (some (.vstr s)) = (romanSpec s).map Val.vint) ∧
    clean_roman (some (.vstr "IV")) = some (.vint 4) ∧
    clean_roman (some (.vstr "XII")) = some (.vint 12) ∧
    clean_roman (some (.vstr "ABC")) = none ∧
    clean_roman (some (.vstr "IIII")) = some (.vint 4) ∧
    clean_roman (some (.vstr "VX")) = some (.vint 5) := by
  refine ⟨fun s => ?_, by decide, by decide, by decide, by decide, by decide⟩
  show (let roman := (pyStrip (pyStr (.vstr s))).toList.map Char.toUpper
        if roman.all (fun c => (romanValues c).isSome) then
          some (Val.vint (romanLoop (roman.map (fun c => (romanValues c).getD 0))))
        else none) = (romanSpec s).map Val.vint
  rw [romanSpec]
  simp only [pyStr, romanLoop_eq_pairSum]
  split
  · rfl
  · rfl

end DataCleaning

namespace DataCleaning

lemma colNames_setCol (t : Table) (c : String) (v : List Cell) :
    colNames (setCol t c v) = colNames t := by
  unfold colNames setCol
  rw [List.map_map]
  refine List.map_congr_left fun e _ => ?_
  simp only [Function.comp_apply]
  split
  · rfl
  · rfl

lemma getCol_cons (e : String × List Cell) (rest : Table) (n : String) :
    getCol (e :: rest) n = if e.1 == n then some e.2 else getCol rest n := by
  unfold getCol
  rw [List.find?_cons]
  by_cases h : (e.1 == n) = true
  · simp [h]
  · simp [h]

lemma getCol_setCol_ne (t : Table) (c : String) (v : List Cell) (n : String) (h : n ≠ c) :
    getCol (setCol t c v) n = getCol t n := by
  induction t with
  | nil => rfl
  | cons e rest ih =>
    have hsc : setCol (e :: rest) c v
        = (if e.1 == c then (e.1, v) else e) :: setCol rest c v := rfl
    rw [hsc]
    by_cases h1 : (e.1 == c) = true
    · have hc : e.1 = c := by simpa using h1
      have hne : (e.1 == n) = false := by
        rw [beq_eq_false_iff_ne, hc]
        exact fun hh => h hh.symm
      rw [if_pos h1, getCol_cons, getCol_cons]
      simp only [hne]
      rw [if_neg (by simp), if_neg (by simp [hne])]
      exact ih
    · rw [if_neg h1, getCol_cons, getCol_cons, ih]

lemma setCol_of_not_mem (t : Table) (c : String) (v : List Cell) (h : c ∉ colNames t) :
    setCol t c v = t := by
  induction t with
  | nil => rfl
  | cons e rest ih =>
    rw [show colNames (e :: rest) = e.1 :: colNames rest from rfl, List.mem_cons, not_or] at h
    obtain ⟨h1, h2⟩ := h
    show (if e.1 == c then (e.1, v) else e) :: setCol rest c v = e :: rest
    rw [if_neg (by simp; exact fun hh => h1 hh.symm), ih h2]

lemma rowLens_setCol (t : Table) (c : String) (v : List Cell)
    (hnd : (colNames t).Nodup) (hlen : v.length = (getColD t c).length) :
    rowLens (setCol t c v) = rowLens t := by
  induction t with
  | nil => rfl
  | cons e rest ih =>
    rw [show colNames (e :: rest) = e.1 :: colNames rest from rfl, List.nodup_cons] at hnd
    obtain ⟨hni, hnd2⟩ := hnd
    by_cases h1 : (e.1 == c) = true
    · have hc : e.1 = c := by simpa using h1
      have hget : getColD (e :: rest) c = e.2 := by
        unfold getColD
        rw [getCol_cons, if_pos h1]
        rfl
      rw [hget] at hlen
      have hrest : setCol rest c v = rest :=
        setCol_of_not_mem rest c v (by rw [← hc]; exact hni)
      show rowLens ((if e.1 == c then (e.1, v) else e) :: setCol rest c v) = rowLens (e :: rest)
      rw [if_pos h1, hrest]
      show v.length :: rowLens rest = e.2.length :: rowLens rest
      rw [hlen]
    · have hget : getColD (e :: rest) c = getColD rest c := by
        unfold getColD
        rw [getCol_cons, if_neg h1]
      rw [hget] at hlen
      show rowLens ((if e.1 == c then (e.1, v) else e) :: setCol rest c v) = rowLens (e :: rest)
      rw [if_neg h1]
      show e.2.length :: rowLens (setCol rest c v) = e.2.length :: rowLens rest
      rw [ih hnd2 hlen]

lemma apply_series_length (f : Cell → Except String Cell) :
    ∀ (l l' : List Cell), apply_series f l = .ok l' → l'.length = l.length := by
  intro l
  induction l with
  | nil =>
    intro l' h
    simp only [apply_series, Except.ok.injEq] at h
    rw [← h]
  | cons v rest ih =>
    intro l' h
    unfold apply_series at h
    cases hf : f v with
    | error e =>
      rw [hf] at h
      simp at h
    | ok w =>
      rw [hf] at h
      cases hr : apply_series f rest with
      | error e =>
        rw [hr] at h
        simp at h
      | ok ws =>
        rw [hr] at h
        simp only [Except.ok.injEq] at h
        rw [← h, List.length_cons, List.length_cons, ih ws hr]

lemma process_core_frame (cols : List String) :
    ∀ (t : Table) (f : Cell → Except String Cell), (colNames t).Nodup →
      colNames (process_core t cols f).1 = colNames t ∧
      rowLens (process_core t cols f).1 = rowLens t ∧
      ∀ n, n ∉ cols → getCol (process_core t cols f).1 n = getCol t n := by
  induction cols with
  | nil =>
    intro t f _
    exact ⟨rfl, rfl, fun n _ => rfl⟩
  | cons c rest ih =>
    intro t f hnd
    by_cases hc : hasCol t c = true
    · cases ha : apply_series f (getColD t c) with
      | ok vals =>
        have hstep : process_core t (c :: rest) f = process_core (setCol t c vals) rest f := by
          simp only [process_core, hc, ha, if_true]
        have hnd2 : (colNames (setCol t c vals)).Nodup := by
          rw [colNames_setCol]
          exact hnd
        obtain ⟨h1, h2, h3⟩ := ih (setCol t c vals) f hnd2
        have hlen : vals.length = (getColD t c).length := apply_series_length f _ _ ha
        refine ⟨?_, ?_, ?_⟩
        · rw [hstep, h1, colNames_setCol]
        · rw [hstep, h2, rowLens_setCol t c vals hnd hlen]
        · intro n hn
          rw [List.mem_cons, not_or] at hn
          rw [hstep, h3 n hn.2, getCol_setCol_ne t c vals n hn.1]
      | error e =>
        have hstep : process_core t (c :: rest) f
            = ((process_core t rest f).1, errColumn c e :: (process_core t rest f).2) := by
          simp only [process_core, hc, ha, if_true]
        obtain ⟨h1, h2, h3⟩ := ih t f hnd
        refine ⟨by rw [hstep]; exact h1, by rw [hstep]; exact h2, ?_⟩
        intro n hn
        rw [List.mem_cons, not_or] at hn
        rw [hstep]
        exact h3 n hn.2
    · have hc2 : hasCol t c = false := by simpa using hc
      have hstep : process_core t (c :: rest) f
          = ((process_core t rest f).1, warnNotFound c :: (process_core t rest f).2) := by
        simp only [process_core, hc2, Bool.false_eq_true, if_false]
      obtain ⟨h1, h2, h3⟩ := ih t f hnd
      refine ⟨by rw [hstep]; exact h1, by rw [hstep]; exact h2, ?_⟩
      intro n hn
      rw [List.mem_cons, not_or] at hn
      rw [hstep]
      exact h3 n hn.2

/-- C1: a successful `_process_columns` call (DataFrame argument, list
selector, non-empty selection) returns a fresh table — the caller's table is
a value the pure model cannot mutate — whose column-name sequence and
per-column row counts equal the original's, and whose columns outside the
selection are identical to the original's. The `Nodup` hypothesis is the
data-model invariant that pandas column labels are distinct. -/
theorem C1_process_frame (t : Table) (cols : List String) (f : Cell → Except String Cell)
    (hnd : (colNames t).Nodup) (hne : cols ≠ []) :
    process_columns (.pdf t) (.plist cols) f = .ok (process_core t cols f) ∧
    colNames (process_core t cols f).1 = colNames t ∧
    rowLens (process_core t cols f).1 = rowLens t ∧
    ∀ n, n ∉ cols → getCol (process_core t cols f).1 n = getCol t n := by
  have hie : cols.isEmpty = false := by
    cases cols
    · exact absurd rfl hne
    · rfl
  refine ⟨?_, process_core_frame cols t f hnd⟩
  simp only [process_columns, validate_inputs, hie, Bool.false_eq_true, if_false]

/-- Witness for C1 on a concrete two-column table, cleaning column `a` with
the email parser: the call succeeds and column `b` and the row counts are
untouched. -/
theorem C1_process_frame_witness :
    process_columns (.pdf frameTable) (.plist ["a"]) frameFn
      = .ok (process_core frameTable ["a"] frameFn) ∧
    getCol (process_core frameTable ["a"] frameFn).1 "b" = getCol frameTable "b" ∧
    rowLens (process_core frameTable ["a"] frameFn).1 = rowLens frameTable := by
  obtain ⟨h1, _, h3, h4⟩ :=
    C1_process_frame frameTable ["a"] frameFn (by decide) (by decide)
  exact ⟨h1, h4 "b" (by decide), h3⟩

end DataCleaning

namespace DataCleaning

/-- Counterexample to C8 as stated: on an empty selector the ColumnProcessor
path raises `EmptySelectionError`, but `encrypt_columns` and
`decrypt_columns` perform no validation at all — they return the unchanged
copy with no warnings instead of failing. -/
theorem C8_counterexample :
    process_columns (.pdf smallTable) (.plist []) (fun v => .ok v)
      = .error (.emptySelection "Column names list cannot be empty") ∧
    encrypt_columns smallTable [] "key" = (smallTable, []) ∧
    decrypt_columns smallTable [] "key" = (smallTable, []) := by
  exact ⟨rfl, rfl, rfl⟩

/-- C8 (amended): the cleaning operations that route through
`_process_columns` validate eagerly — a non-DataFrame table argument or a
non-list selector raises `InvalidInputError` and an empty selector raises
`EmptySelectionError`, in that order, before any table is produced — while
the cipher operations `encrypt_columns`/`decrypt_columns` skip
`_validate_inputs` entirely: an empty selector returns the unchanged copy. -/
theorem C8_validation (df colsArg : PyVal) (f : Cell → Except String Cell) :
    (df.isDataFrame = false →
      process_columns df colsArg f = .error (.invalidInput "Input must be a pandas DataFrame")) ∧
    (df.isDataFrame = true → colsArg.isList = false →
      process_columns df colsArg f
        = .error (.invalidInput "Column names must be provided as a list")) ∧
    (∀ t : Table, process_columns (.pdf t) (.plist []) f
        = .error (.emptySelection "Column names list cannot be empty")) ∧
    (∀ (t : Table) (k : String),
      encrypt_columns t [] k = (t, []) ∧ decrypt_columns t [] k = (t, [])) := by
  refine ⟨?_, ?_, fun t => rfl, fun t k => ⟨rfl, rfl⟩⟩
  · intro h
    cases df with
    | pdf t => simp [PyVal.isDataFrame] at h
    | plist l => rfl
    | pstr s => rfl
    | pint n => rfl
    | pnone => rfl
  · intro h1 h2
    cases df with
    | pdf t =>
      cases colsArg with
      | pdf t2 => rfl
      | plist l => simp [PyVal.isList] at h2
      | pstr s => rfl
      | pint n => rfl
      | pnone => rfl
    | plist l => simp [PyVal.isDataFrame] at h1
    | pstr s => simp [PyVal.isDataFrame] at h1
    | pint n => simp [PyVal.isDataFrame] at h1
    | pnone => simp [PyVal.isDataFrame] at h1

/-- Witness for C8 (amended) at concrete ill-typed arguments: a string where
the DataFrame belongs, and a string where the list of names belongs. -/
theorem C8_validation_witness :
    process_columns (.pstr "x") (.plist ["a"]) (fun v => .ok v)
      = .error (.invalidInput "Input must be a pandas DataFrame") ∧
    process_columns (.pdf smallTable) (.pstr "cols") (fun v => .ok v)
      = .error (.invalidInput "Column names must be provided as a list") :=
  ⟨(C8_validation (.pstr "x") (.plist ["a"]) (fun v => .ok v)).1 rfl,
   ((C8_validation (.pdf smallTable) (.pstr "cols") (fun v => .ok v)).2.1 rfl rfl)⟩

/-- Counterexample to C9 as stated: `decrypt_columns` computes the new name
with `str.replace`, which deletes *every* occurrence of the tag, not just a
suffix — a column named with the tag twice is renamed to `id`, where
stripping the suffix from the end would give `id_encrypted`. -/
theorem C9_counterexample :
    colNames (decrypt_columns tagTable ["id_encrypted_encrypted"] "k").1 = ["id"] ∧
    ("id" : String) ≠ "id_encrypted" := by
  exact ⟨by decide, by decide⟩

/-- C9 (amended): for a selected name present in the table, `encrypt_columns`
adds a column named `<name>_encrypted` holding the encrypted values and drops
the source column, and `decrypt_columns` adds a column named with *every
occurrence* of the `_encrypted` substring removed, holding the decrypted
values, and drops the source column; for an absent name both emit one warning
and leave the table unchanged, creating no column. -/
theorem C9_cipher_columns (t : Table) (c : String) (key : String) :
    (hasCol t c = true →
      encrypt_columns t [c] key
        = (dropCol (addOrSet t (c ++ "_encrypted")
            ((getColD t c).map (fun v => encrypt_value v key))) c, []) ∧
      decrypt_columns t [c] key
        = (dropCol (addOrSet t (removeTagStr c)
            ((getColD t c).map (fun v => decrypt_value v key))) c, [])) ∧
    (hasCol t c = false →
      encrypt_columns t [c] key = (t, [warnNotFoundCipher c]) ∧
      decrypt_columns t [c] key = (t, [warnNotFoundCipher c])) := by
  constructor
  · intro h
    constructor
    · simp only [encrypt_columns, h, if_true]
    · simp only [decrypt_columns, h, if_true]
  · intro h
    constructor
    · simp only [encrypt_columns, h, Bool.false_eq_true, if_false]
    · simp only [decrypt_columns, h, Bool.false_eq_true, if_false]

/-- Witness for C9 (amended): encrypting present column `pw` of a concrete
table, and decrypting with an absent selected name. -/
theorem C9_cipher_columns_witness :
    encrypt_columns cipherTable ["pw"] "k"
      = (dropCol (addOrSet cipherTable ("pw" ++ "_encrypted")
          ((getColD cipherTable "pw").map (fun v => encrypt_value v "k"))) "pw", []) ∧
    decrypt_columns cipherTable ["zz"] "k" = (cipherTable, [warnNotFoundCipher "zz"]) :=
  ⟨((C9_cipher_columns cipherTable "pw" "k").1 (by decide)).1,
   ((C9_cipher_columns cipherTable "zz" "k").2 (by decide)).2⟩

end DataCleaning
